import Mathlib

/-!
Shallow embedding of QSchematic::View (src/qschematic/view.cpp): the zoom
state and its exponential interpolation, the keyboard and wheel handlers,
the scene-rect maintenance, the pan gesture, the fit-all operation and the
scene attachment.  Definitions mirror the C++ source; the theorems at the
end settle the specification claims about it.

The constants zoom_factor_min, zoom_factor_max, zoom_factor_step and
fitall_padding live in view.hpp, which is not part of the excerpt; they are
kept as parameters (zmin, zmax, step), constrained only as the spec
describes them (fixed min and max zoom ratio, fixed step).
-/

namespace QSchematic

/-- View::setZoomValue (view.cpp:189-194): the normalized factor stored for a
requested actual zoom, computed as ln(zmin / factor) / ln(zmin / zmax).
No clamping happens at this call site. -/
noncomputable def setZoomValue_factor (zmin zmax factor : ℝ) : ℝ :=
  Real.log (zmin / factor) / Real.log (zmin / zmax)

/-- View::updateScale (view.cpp:196-209): the actual zoom derived from the
stored normalized factor by exponential (log-domain linear) interpolation:
exp(ln zmin + (ln zmax - ln zmin) * s). -/
noncomputable def updateScale_zoom (zmin zmax s : ℝ) : ℝ :=
  Real.exp (Real.log zmin + (Real.log zmax - Real.log zmin) * s)

/-- View::wheelEvent (view.cpp:99-115) acting on the stored normalized factor:
with Ctrl held, the factor moves by one step up or down according to the sign
of angleDelta().y() and is then clamped by qBound(0.0, _, 1.0); without Ctrl
nothing in the modelled state changes. -/
noncomputable def wheelEvent (step : ℝ) (ctrl : Bool) (angleDeltaY : ℤ) (s : ℝ) : ℝ :=
  if ctrl then
    max 0 (min (if 0 < angleDeltaY then s + step else if angleDeltaY < 0 then s - step else s) 1)
  else s

/-- Scene mode (Scene::NormalMode / Scene::WireMode), as used by view.cpp. -/
inductive SceneMode
  | normal
  | wire
deriving DecidableEq

/-- An undoable command pushed on the undo stack of the scene; view.cpp pushes
Commands::ItemRemove(scene, item) objects (view.cpp:76-77), identified here by
the removed item. -/
inductive Cmd
  | itemRemove (item : ℕ)
deriving DecidableEq

/-- Modelled from the spec: the Scene collaborator (scene.hpp is not under
src/).  It holds the current mode, the selected top-level items, the undo
stack and the wire-drawing state (last placed wire points, posture). -/
structure SceneM where
  mode : SceneMode
  selected : List ℕ
  undoStack : List Cmd
  wirePoints : List (ℚ × ℚ)
  posture : Bool

/-- Modelled from the spec: Scene::setMode sets the editing mode. -/
def Scene.setMode (s : SceneM) (m : SceneMode) : SceneM :=
  { s with mode := m }

/-- Modelled from the spec: Scene::toggleWirePosture toggles the routing
posture of the wire being drawn. -/
def Scene.toggleWirePosture (s : SceneM) : SceneM :=
  { s with posture := !s.posture }

/-- Modelled from the spec: Scene::removeLastWirePoint removes the last placed
wire point. -/
def Scene.removeLastWirePoint (s : SceneM) : SceneM :=
  { s with wirePoints := s.wirePoints.dropLast }

/-- Keys handled by View::keyPressEvent. -/
inductive Key
  | plus
  | minus
  | zero
  | keyW
  | space
  | escape
  | delete
  | backspace
  | other
deriving DecidableEq

/-- The part of the controller state read and written by the key and wheel
handlers: the stored normalized factor and the attached scene (null when no
scene is attached). -/
structure KeyState where
  scaleFactor : ℝ
  scene : Option SceneM

/-- The second switch of View::keyPressEvent (view.cpp:66-96): plain keys.
The returned Bool is true when the event falls through to the default
QGraphicsView handler, which touches none of the state modelled here. -/
def View.keyPressRest (st : KeyState) (k : Key) : KeyState × Bool :=
  match k with
  | .escape => ({ st with scene := st.scene.map (fun s => Scene.setMode s .normal) }, false)
  | .delete =>
    match st.scene with
    | none => (st, false)
    | some s =>
      if s.mode = .normal then
        ({ st with scene := some { s with undoStack := s.undoStack ++ s.selected.map Cmd.itemRemove } }, false)
      else
        ({ st with scene := some (Scene.removeLastWirePoint s) }, false)
  | .backspace =>
    match st.scene with
    | some s =>
      if s.mode = .wire then ({ st with scene := some (Scene.removeLastWirePoint s) }, false)
      else (st, true)
    | none => (st, true)
  | _ => (st, true)

/-- View::keyPressEvent (view.cpp:30-97).  With Ctrl held, Plus and Minus move
the normalized factor by one step without any clamping, Key 0 resets it via
setZoomValue(1.0), W and Space act on the scene when one is attached; every
other combination falls through to the plain-key switch. -/
noncomputable def View.keyPressEvent (zmin zmax step : ℝ) (st : KeyState) (ctrl : Bool)
    (k : Key) : KeyState × Bool :=
  if ctrl then
    match k with
    | .plus => ({ st with scaleFactor := st.scaleFactor + step }, false)
    | .minus => ({ st with scaleFactor := st.scaleFactor - step }, false)
    | .zero => ({ st with scaleFactor := setZoomValue_factor zmin zmax 1 }, false)
    | .keyW => ({ st with scene := st.scene.map (fun s => Scene.setMode s .wire) }, false)
    | .space => ({ st with scene := st.scene.map Scene.toggleWirePosture }, false)
    | _ => View.keyPressRest st k
  else View.keyPressRest st k

/-- A floating-point rectangle (QRectF), with rational coordinates standing
for the qreal values. -/
structure QRectF where
  x : ℚ
  y : ℚ
  w : ℚ
  h : ℚ
deriving DecidableEq

/-- An integer rectangle (QRect). -/
structure QRect where
  x : ℤ
  y : ℤ
  w : ℤ
  h : ℤ
deriving DecidableEq

/-- qRound: Qt rounding to the nearest integer, halves away from zero. -/
def qRound (q : ℚ) : ℤ :=
  if 0 ≤ q then ⌊q + 1 / 2⌋ else ⌈q - 1 / 2⌉

/-- QRectF::toRect: every coordinate is rounded with qRound. -/
def QRectF.toRect (r : QRectF) : QRect :=
  ⟨qRound r.x, qRound r.y, qRound r.w, qRound r.h⟩

/-- Implicit conversion QRect to QRectF. -/
def QRect.toRectF (r : QRect) : QRectF :=
  ⟨(r.x : ℚ), (r.y : ℚ), (r.w : ℚ), (r.h : ℚ)⟩

/-- QRect::isNull: both width and height are zero. -/
def QRect.isNull (r : QRect) : Prop :=
  r.w = 0 ∧ r.h = 0

instance (r : QRect) : Decidable r.isNull :=
  inferInstanceAs (Decidable (_ ∧ _))

/-- QRect::contains(r, proper = true): r is entirely inside, not touching any
edge; false when either rectangle is null. -/
def QRect.containsProper (a b : QRect) : Prop :=
  ¬a.isNull ∧ ¬b.isNull ∧
    a.x < b.x ∧ b.x + b.w < a.x + a.w ∧ a.y < b.y ∧ b.y + b.h < a.y + a.h

instance (a b : QRect) : Decidable (a.containsProper b) :=
  inferInstanceAs (Decidable (_ ∧ _))

/-- QRectF::isNull: both width and height are zero. -/
def QRectF.isNull (r : QRectF) : Prop :=
  r.w = 0 ∧ r.h = 0

instance (r : QRectF) : Decidable r.isNull :=
  inferInstanceAs (Decidable (_ ∧ _))

/-- QRectF::united: the bounding rectangle of the two rectangles; a null
rectangle is ignored, and a negative width or height is normalized on the
fly, as in the Qt implementation. -/
def QRectF.united (a b : QRectF) : QRectF :=
  if a.isNull then b
  else if b.isNull then a
  else
    let l1 := if a.w < 0 then a.x + a.w else a.x
    let r1 := if a.w < 0 then a.x else a.x + a.w
    let t1 := if a.h < 0 then a.y + a.h else a.y
    let bo1 := if a.h < 0 then a.y else a.y + a.h
    let l2 := if b.w < 0 then b.x + b.w else b.x
    let r2 := if b.w < 0 then b.x else b.x + b.w
    let t2 := if b.h < 0 then b.y + b.h else b.y
    let bo2 := if b.h < 0 then b.y else b.y + b.h
    ⟨min l1 l2, min t1 t2, max r1 r2 - min l1 l2, max bo1 bo2 - min t1 t2⟩

/-- Spec-side notion used by the claims: a rectangle fully contains another
one (non-strict edge inequalities). -/
def QRectF.containsRectF (a b : QRectF) : Prop :=
  a.x ≤ b.x ∧ b.x + b.w ≤ a.x + a.w ∧ a.y ≤ b.y ∧ b.y + b.h ≤ a.y + a.h

instance (a b : QRectF) : Decidable (a.containsRectF b) :=
  inferInstanceAs (Decidable (_ ∧ _))

/-- The padded visible rectangle of View::updateSceneRect (view.cpp:212-214):
the visible scene bounding rect is rounded to integers (toRect) and then
padded by 50 units on every side. -/
def paddedVisible (vis : QRectF) : QRectF :=
  let r := vis.toRect.toRectF
  ⟨r.x - 50, r.y - 50, r.w + 100, r.h + 100⟩

/-- View::updateSceneRect (view.cpp:211-219) as a function of the current
scene rect and of the visible scene bounding rect: when the rounded scene
rect does not properly contain the rounded padded visible rect, the scene
rect becomes the union of the two; otherwise it is left alone. -/
def View.updateSceneRect (sceneRect vis : QRectF) : QRectF :=
  let rect := paddedVisible vis
  if ¬ sceneRect.toRect.containsProper rect.toRect then sceneRect.united rect
  else sceneRect

/-- The zoom state read and written by View::fitInView: the stored normalized
factor and the actual zoom of the view transform. -/
structure FitState where
  scaleFactor : ℝ
  zoom : ℝ

/-- View::fitInView (view.cpp:229-257).  The list is the attached scene item
bounding rects (null scene when none is attached); fitZoom is the actual zoom
the view has after the external QGraphicsView::fitInView call on the padded
union of those rects, i.e. the viewport width divided by the width of the
viewport mapped to the scene (view.cpp:249-251), an external-toolkit
computation kept as a parameter.  The early return on a null scene, the cap
of the new factor against 1.0 or against the previous stored factor
(view.cpp:252-255) and the final setZoomValue/updateScale are modelled
exactly. -/
noncomputable def View.fitInView (zmin zmax : ℝ) (scene : Option (List QRectF))
    (fitZoom : ℝ) (st : FitState) : FitState :=
  match scene with
  | none => st
  | some _ =>
    let currentScaleFactor := st.scaleFactor
    let newScaleFactor :=
      if currentScaleFactor < 1 then min fitZoom 1 else min fitZoom currentScaleFactor
    { scaleFactor := setZoomValue_factor zmin zmax newScaleFactor,
      zoom := updateScale_zoom zmin zmax (setZoomValue_factor zmin zmax newScaleFactor) }

/-- QPointF::toPoint applied componentwise (qRound of both coordinates). -/
def toPointQ (p : ℚ × ℚ) : ℚ × ℚ :=
  ((qRound p.1 : ℚ), (qRound p.2 : ℚ))

/-- Componentwise difference of two points. -/
def psub (u v : ℚ × ℚ) : ℚ × ℚ :=
  (u.1 - v.1, u.2 - v.2)

/-- The view transform as built by this code: a uniform scale m11 composed
with a translation (dx, dy); view coordinates are m11 * scene + (dx, dy). -/
structure QTransform where
  m11 : ℚ
  dx : ℚ
  dy : ℚ
deriving DecidableEq

/-- QTransform::translate for the scale-plus-translation transforms used
here: the translation is prepended in scene space. -/
def QTransform.translate (t : QTransform) (d : ℚ × ℚ) : QTransform :=
  ⟨t.m11, t.dx + t.m11 * d.1, t.dy + t.m11 * d.2⟩

/-- The interaction mode of the view (View::Mode). -/
inductive ViewMode
  | normalMode
  | panMode
deriving DecidableEq

/-- The viewport cursor shapes set by this code. -/
inductive CursorShape
  | arrow
  | cross
  | closedHand
deriving DecidableEq

/-- Mouse buttons. -/
inductive MouseButton
  | leftB
  | middleB
  | rightB
deriving DecidableEq

/-- The state touched by the pan gesture: the interaction mode, the pan
anchor, the view transform and the viewport cursor. -/
structure PanState where
  mode : ViewMode
  panStart : ℚ × ℚ
  transform : QTransform
  cursor : CursorShape
deriving DecidableEq

/-- View mapToScene: the inverse of the view transform (the scroll bars are
switched off in the constructor, view.cpp:15-16). -/
def View.mapToScene (t : QTransform) (p : ℚ × ℚ) : ℚ × ℚ :=
  ((p.1 - t.dx) / t.m11, (p.2 - t.dy) / t.m11)

/-- View::mousePressEvent (view.cpp:135-145): a middle press enters Pan mode,
stores the integer event position (event pos) as the pan anchor and sets the
closed-hand cursor; every other button is left to the default handler, which
touches none of the modelled state. -/
def View.mousePressEvent (st : PanState) (b : MouseButton) (position : ℚ × ℚ) : PanState :=
  if b = .middleB then
    { st with mode := .panMode, panStart := toPointQ position, cursor := .closedHand }
  else st

/-- View::mouseMoveEvent (view.cpp:116-133): in Pan mode the transform is
translated by the scene-space delta between the integer event position and
the (rounded) anchor, and the anchor becomes the raw event position. -/
def View.mouseMoveEvent (st : PanState) (position : ℚ × ℚ) : PanState :=
  match st.mode with
  | .normalMode => st
  | .panMode =>
    let delta := psub (View.mapToScene st.transform (toPointQ position))
      (View.mapToScene st.transform (toPointQ st.panStart))
    { st with transform := st.transform.translate delta, panStart := position }

/-- View::mouseReleaseEvent (view.cpp:147-156): a middle release returns to
Normal mode and restores the arrow cursor. -/
def View.mouseReleaseEvent (st : PanState) (b : MouseButton) : PanState :=
  if b = .middleB then { st with mode := .normalMode, cursor := .arrow } else st

/-- The state relevant to scene attachment: the registered
modeChanged-to-cursor connections (by source scene), the attached scene and
the viewport cursor.  Scenes are identified by a number. -/
structure ConnView where
  connections : List ℕ
  scene : Option ℕ
  cursor : CursorShape

/-- The modeChanged handler installed by View::setScene (view.cpp:161-174):
Normal mode sets the arrow cursor, Wire mode the cross cursor. -/
def sceneModeCursor (m : SceneMode) : CursorShape :=
  match m with
  | .normal => .arrow
  | .wire => .cross

/-- View::setScene (view.cpp:158-180): a non-null scene gets a fresh
modeChanged-to-cursor connection appended; no previous connection is ever
disconnected; the scene reference is replaced in both cases. -/
def View.setScene (st : ConnView) (s : Option ℕ) : ConnView :=
  match s with
  | some sid => { st with connections := st.connections ++ [sid], scene := some sid }
  | none => { st with scene := none }

/-- Signal dispatch: a modeChanged emission from scene src runs every handler
connected to src, i.e. updates the cursor whenever some connection from src
exists. -/
def emitModeChanged (st : ConnView) (src : ℕ) (m : SceneMode) : ConnView :=
  if src ∈ st.connections then { st with cursor := sceneModeCursor m } else st

theorem log_sub_ne_zero {zmin zmax : ℝ} (h1 : 0 < zmin) (h2 : 0 < zmax) (hne : zmin ≠ zmax) :
    Real.log zmin - Real.log zmax ≠ 0 := by
  refine sub_ne_zero.mpr (fun h => hne ?_)
  rw [← Real.exp_log h1, ← Real.exp_log h2, h]

theorem factor_of_zoom {zmin zmax : ℝ} (h1 : 0 < zmin) (h2 : 0 < zmax) (hne : zmin ≠ zmax)
    (f : ℝ) : setZoomValue_factor zmin zmax (updateScale_zoom zmin zmax f) = f := by
  have hD := log_sub_ne_zero h1 h2 hne
  unfold setZoomValue_factor updateScale_zoom
  rw [Real.log_div (ne_of_gt h1) (ne_of_gt (Real.exp_pos _)), Real.log_exp,
    Real.log_div (ne_of_gt h1) (ne_of_gt h2)]
  field_simp
  ring

theorem zoom_of_factor {zmin zmax : ℝ} (h1 : 0 < zmin) (h2 : 0 < zmax) (hne : zmin ≠ zmax)
    {z : ℝ} (hz : 0 < z) : updateScale_zoom zmin zmax (setZoomValue_factor zmin zmax z) = z := by
  have hD := log_sub_ne_zero h1 h2 hne
  unfold setZoomValue_factor updateScale_zoom
  rw [Real.log_div (ne_of_gt h1) (ne_of_gt hz), Real.log_div (ne_of_gt h1) (ne_of_gt h2)]
  rw [show Real.log zmin + (Real.log zmax - Real.log zmin) *
      ((Real.log zmin - Real.log z) / (Real.log zmin - Real.log zmax)) = Real.log z from by
    field_simp
    ring]
  exact Real.exp_log hz

/-- C1: the zoom-interpolation formula round-trips: for every normalized
factor f in [0,1], applying the exponential interpolation of updateScale and
then inverting it with the setZoomValue normalization recovers f, and
setZoomValue(1.0) followed by updateScale yields an actual zoom of 1.0. -/
theorem zoom_interpolation_roundtrip (zmin zmax : ℝ) (h1 : 0 < zmin) (h2 : 0 < zmax)
    (hne : zmin ≠ zmax) :
    (∀ f : ℝ, 0 ≤ f → f ≤ 1 →
      setZoomValue_factor zmin zmax (updateScale_zoom zmin zmax f) = f)
    ∧ updateScale_zoom zmin zmax (setZoomValue_factor zmin zmax 1) = 1 := by
  exact ⟨fun f _ _ => factor_of_zoom h1 h2 hne f, zoom_of_factor h1 h2 hne one_pos⟩

theorem zoom_interpolation_roundtrip_witness :
    (0 : ℝ) < 1 / 4 ∧ (0 : ℝ) < 10 ∧ (1 / 4 : ℝ) ≠ 10 ∧
    setZoomValue_factor (1 / 4) 10 (updateScale_zoom (1 / 4) 10 (1 / 2)) = 1 / 2 ∧
    updateScale_zoom (1 / 4) 10 (setZoomValue_factor (1 / 4) 10 1) = 1 := by
  refine ⟨by norm_num, by norm_num, by norm_num, ?_, ?_⟩
  · exact (zoom_interpolation_roundtrip (1 / 4) 10 (by norm_num) (by norm_num) (by norm_num)).1
      (1 / 2) (by norm_num) (by norm_num)
  · exact (zoom_interpolation_roundtrip (1 / 4) 10 (by norm_num) (by norm_num) (by norm_num)).2

/-- C2 counterexample: not every operation keeps the stored factor inside
[0,1].  From the in-range factor 1, the keyboard zoom-in path (Ctrl+Plus,
step 1/4) produces a factor above 1, because it does not clamp. -/
theorem zoom_factor_invariant_cex :
    0 ≤ (KeyState.mk 1 none).scaleFactor ∧ (KeyState.mk 1 none).scaleFactor ≤ 1 ∧
    ¬ ((View.keyPressEvent (1 / 4) 10 (1 / 4) (KeyState.mk 1 none) true
        Key.plus).1.scaleFactor ≤ 1) := by
  refine ⟨by norm_num, by norm_num, ?_⟩
  norm_num [View.keyPressEvent]

/-- C2 (amended): the wheel path always keeps the stored factor in [0,1]
(it clamps with qBound), but the keyboard zoom path and setZoomValue are
un-clamped and can move the factor outside [0,1]. -/
theorem wheel_zoom_clamped (step : ℝ) (ctrl : Bool) (dy : ℤ) (s : ℝ)
    (h0 : 0 ≤ s) (h1 : s ≤ 1) :
    0 ≤ wheelEvent step ctrl dy s ∧ wheelEvent step ctrl dy s ≤ 1 := by
  unfold wheelEvent
  by_cases hc : ctrl = true
  · simp only [if_pos hc]
    exact ⟨le_max_left 0 _, max_le zero_le_one (min_le_right _ 1)⟩
  · simp only [if_neg hc]
    exact ⟨h0, h1⟩

theorem wheel_zoom_clamped_witness :
    (0 : ℝ) ≤ 1 / 2 ∧ (1 / 2 : ℝ) ≤ 1 ∧
    (0 ≤ wheelEvent (1 / 4) true 120 (1 / 2) ∧ wheelEvent (1 / 4) true 120 (1 / 2) ≤ 1) :=
  ⟨by norm_num, by norm_num,
    wheel_zoom_clamped (1 / 4) true 120 (1 / 2) (by norm_num) (by norm_num)⟩

/-- C3: repeated wheel zoom-in calls are monotonically non-decreasing in the
stored normalized factor and never move it above 1 (the wheel path clamps to
[0,1]), while the keyboard zoom-in path adds the step with no clamp at all
before recomputing. -/
theorem wheel_zoomIn_monotone_clamped (zmin zmax step : ℝ) (dy : ℤ) (s : ℝ)
    (hstep : 0 ≤ step) (hdy : 0 < dy) (h0 : 0 ≤ s) (h1 : s ≤ 1) :
    (∀ n : ℕ,
      (fun x => wheelEvent step true dy x)^[n] s
          ≤ (fun x => wheelEvent step true dy x)^[n + 1] s
      ∧ 0 ≤ (fun x => wheelEvent step true dy x)^[n] s
      ∧ (fun x => wheelEvent step true dy x)^[n] s ≤ 1)
    ∧ ∀ st : KeyState,
        (View.keyPressEvent zmin zmax step st true Key.plus).1.scaleFactor
          = st.scaleFactor + step := by
  have hstepf : ∀ x : ℝ, 0 ≤ x → x ≤ 1 →
      x ≤ wheelEvent step true dy x ∧ 0 ≤ wheelEvent step true dy x
        ∧ wheelEvent step true dy x ≤ 1 := by
    intro x hx0 hx1
    unfold wheelEvent
    rw [if_pos rfl, if_pos hdy]
    refine ⟨?_, le_max_left 0 _, max_le zero_le_one (min_le_right _ 1)⟩
    exact le_trans (le_min (by linarith) hx1) (le_max_right 0 _)
  have hinv : ∀ n : ℕ, 0 ≤ (fun x => wheelEvent step true dy x)^[n] s
      ∧ (fun x => wheelEvent step true dy x)^[n] s ≤ 1 := by
    intro n
    induction n with
    | zero => simpa using ⟨h0, h1⟩
    | succ n ih =>
      rw [Function.iterate_succ_apply']
      exact ⟨(hstepf _ ih.1 ih.2).2.1, (hstepf _ ih.1 ih.2).2.2⟩
  constructor
  · intro n
    refine ⟨?_, (hinv n).1, (hinv n).2⟩
    rw [Function.iterate_succ_apply']
    exact (hstepf _ (hinv n).1 (hinv n).2).1
  · intro st
    simp [View.keyPressEvent]

theorem wheel_zoomIn_monotone_clamped_witness :
    ((0 : ℝ) ≤ 1 / 4 ∧ (0 : ℤ) < 120 ∧ (0 : ℝ) ≤ 1 / 2 ∧ (1 / 2 : ℝ) ≤ 1) ∧
    ((fun x => wheelEvent (1 / 4) true 120 x)^[2] (1 / 2)
        ≤ (fun x => wheelEvent (1 / 4) true 120 x)^[2 + 1] (1 / 2)
      ∧ 0 ≤ (fun x => wheelEvent (1 / 4) true 120 x)^[2] (1 / 2)
      ∧ (fun x => wheelEvent (1 / 4) true 120 x)^[2] (1 / 2) ≤ 1)
    ∧ (View.keyPressEvent (1 / 4) 10 (1 / 4) (KeyState.mk (1 / 2) none) true
        Key.plus).1.scaleFactor = (KeyState.mk (1 / 2) none).scaleFactor + 1 / 4 := by
  refine ⟨⟨by norm_num, by norm_num, by norm_num, by norm_num⟩, ?_, ?_⟩
  · exact (wheel_zoomIn_monotone_clamped (1 / 4) 10 (1 / 4) 120 (1 / 2) (by norm_num)
      (by norm_num) (by norm_num) (by norm_num)).1 2
  · exact (wheel_zoomIn_monotone_clamped (1 / 4) 10 (1 / 4) 120 (1 / 2) (by norm_num)
      (by norm_num) (by norm_num) (by norm_num)).2 (KeyState.mk (1 / 2) none)

theorem factor_at_two_lt_one : setZoomValue_factor (1 / 4 : ℝ) 10 2 < 1 := by
  unfold setZoomValue_factor
  rw [show ((1 : ℝ) / 4) / 2 = 1 / 8 from by norm_num,
    show ((1 : ℝ) / 4) / 10 = 1 / 40 from by norm_num,
    one_div, one_div, Real.log_inv, Real.log_inv, neg_div_neg_eq,
    div_lt_one (Real.log_pos (by norm_num))]
  exact Real.log_lt_log (by norm_num) (by norm_num)

theorem fit_on_empty_scene_changes_state :
    View.fitInView (1 / 4) 10 (some []) 2
        (FitState.mk (setZoomValue_factor (1 / 4) 10 2) 2)
      ≠ FitState.mk (setZoomValue_factor (1 / 4) 10 2) 2 := by
  intro h
  have hz := congrArg FitState.zoom h
  simp only [View.fitInView] at hz
  rw [if_pos factor_at_two_lt_one,
    show (min (2 : ℝ) 1) = 1 from by norm_num,
    zoom_of_factor (by norm_num) (by norm_num) (by norm_num) one_pos] at hz
  exact absurd hz (by norm_num)

/-- C4 counterexample: fitAll on an attached but empty scene is not a no-op.
With the view previously at actual zoom 2 (stored factor below 1, consistent
state), the cap logic after the external fit step sets the zoom to
min(fitZoom, 1); even when the fit step leaves the actual zoom at 2, the
final state has zoom 1, so the zoom state changed. -/
theorem fitAll_empty_scene_not_noop :
    View.fitInView (1 / 4) 10 (some []) 2
        (FitState.mk (setZoomValue_factor (1 / 4) 10 2) 2)
      ≠ FitState.mk (setZoomValue_factor (1 / 4) 10 2) 2 :=
  fit_on_empty_scene_changes_state

/-- C4 (amended): fitAll is a no-op exactly when no scene is attached - the
only early return is the null-scene check.  On an attached scene, even an
empty one, the fit-and-cap logic still runs and can change the zoom state. -/
theorem fitAll_null_scene_noop :
    (∀ (zmin zmax fitZoom : ℝ) (st : FitState),
      View.fitInView zmin zmax none fitZoom st = st)
    ∧ ∃ (zmin zmax fitZoom : ℝ) (st : FitState),
        View.fitInView zmin zmax (some []) fitZoom st ≠ st := by
  refine ⟨fun zmin zmax fitZoom st => rfl, ?_⟩
  exact ⟨1 / 4, 10, 2, FitState.mk (setZoomValue_factor (1 / 4) 10 2) 2,
    fit_on_empty_scene_changes_state⟩

/-- C5: fitAll caps the resulting zoom.  For a consistent zoom state whose
actual zoom does not exceed the maximum zoom ratio: if the view was
previously below actual zoom 1, the zoom after fitAll is at most 1, and if
it was previously above 1, the zoom after fitAll does not exceed the
previous zoom. -/
theorem fitAll_caps_zoom (zmin zmax fitZoom : ℝ) (items : List QRectF) (st : FitState)
    (h1 : 0 < zmin) (h2 : zmin < 1) (h3 : 1 < zmax) (hv : 0 < fitZoom)
    (hcons : st.zoom = updateScale_zoom zmin zmax st.scaleFactor)
    (hle : st.zoom ≤ zmax) :
    (st.zoom < 1 → (View.fitInView zmin zmax (some items) fitZoom st).zoom ≤ 1)
    ∧ (1 < st.zoom → (View.fitInView zmin zmax (some items) fitZoom st).zoom ≤ st.zoom) := by
  have h0max : 0 < zmax := lt_trans one_pos h3
  have hne : zmin ≠ zmax := ne_of_lt (lt_trans h2 h3)
  have hlm : Real.log zmin < Real.log zmax := Real.log_lt_log h1 (lt_trans h2 h3)
  have hs : st.scaleFactor ≤ 1 := by
    have hz : updateScale_zoom zmin zmax st.scaleFactor ≤ zmax := hcons ▸ hle
    unfold updateScale_zoom at hz
    have hargs : Real.log zmin + (Real.log zmax - Real.log zmin) * st.scaleFactor
        ≤ Real.log zmax := (Real.le_log_iff_exp_le h0max).mpr hz
    nlinarith [hargs, hlm]
  have key : (View.fitInView zmin zmax (some items) fitZoom st).zoom ≤ 1 := by
    simp only [View.fitInView]
    by_cases hcase : st.scaleFactor < 1
    · rw [if_pos hcase, zoom_of_factor h1 h0max hne (lt_min hv one_pos)]
      exact min_le_right _ 1
    · rw [if_neg hcase, le_antisymm hs (not_lt.mp hcase),
        zoom_of_factor h1 h0max hne (lt_min hv one_pos)]
      exact min_le_right _ 1
  exact ⟨fun _ => key, fun hgt => le_trans key (le_of_lt hgt)⟩

theorem fitAll_caps_zoom_witness :
    (0 : ℝ) < 1 / 4 ∧ (1 / 4 : ℝ) < 1 ∧ (1 : ℝ) < 10 ∧ (0 : ℝ) < 7 ∧
    (FitState.mk (setZoomValue_factor (1 / 4) 10 (1 / 2)) (1 / 2)).zoom
      = updateScale_zoom (1 / 4) 10
          (FitState.mk (setZoomValue_factor (1 / 4) 10 (1 / 2)) (1 / 2)).scaleFactor ∧
    (FitState.mk (setZoomValue_factor (1 / 4) 10 (1 / 2)) (1 / 2)).zoom ≤ 10 ∧
    ((FitState.mk (setZoomValue_factor (1 / 4) 10 (1 / 2)) (1 / 2)).zoom < 1 →
      (View.fitInView (1 / 4) 10 (some []) 7
        (FitState.mk (setZoomValue_factor (1 / 4) 10 (1 / 2)) (1 / 2))).zoom ≤ 1) ∧
    (1 < (FitState.mk (setZoomValue_factor (1 / 4) 10 (1 / 2)) (1 / 2)).zoom →
      (View.fitInView (1 / 4) 10 (some []) 7
        (FitState.mk (setZoomValue_factor (1 / 4) 10 (1 / 2)) (1 / 2))).zoom
        ≤ (FitState.mk (setZoomValue_factor (1 / 4) 10 (1 / 2)) (1 / 2)).zoom) := by
  have hcons : (FitState.mk (setZoomValue_factor (1 / 4) 10 (1 / 2)) (1 / 2)).zoom
      = updateScale_zoom (1 / 4) 10
          (FitState.mk (setZoomValue_factor (1 / 4) 10 (1 / 2)) (1 / 2)).scaleFactor := by
    show (1 / 2 : ℝ) = updateScale_zoom (1 / 4) 10 (setZoomValue_factor (1 / 4) 10 (1 / 2))
    exact (zoom_of_factor (by norm_num) (by norm_num) (by norm_num) (by norm_num)).symm
  have hle : (FitState.mk (setZoomValue_factor (1 / 4) 10 (1 / 2)) (1 / 2)).zoom ≤ 10 := by
    show (1 / 2 : ℝ) ≤ 10
    norm_num
  have h := fitAll_caps_zoom (1 / 4) 10 7 []
    (FitState.mk (setZoomValue_factor (1 / 4) 10 (1 / 2)) (1 / 2))
    (by norm_num) (by norm_num) (by norm_num) (by norm_num) hcons hle
  exact ⟨by norm_num, by norm_num, by norm_num, by norm_num, hcons, hle, h.1, h.2⟩

/-- C6: pressing Delete with a scene attached, in Normal mode and with the
given selected top-level items, pushes exactly one remove-item command per
selected item onto the undo stack, in selection-iteration order (and touches
nothing else). -/
theorem delete_pushes_remove_commands (zmin zmax step sf : ℝ) (sel : List ℕ)
    (stack : List Cmd) (wp : List (ℚ × ℚ)) (post : Bool) :
    View.keyPressEvent zmin zmax step
        (KeyState.mk sf (some (SceneM.mk SceneMode.normal sel stack wp post))) false Key.delete
      = (KeyState.mk sf
          (some (SceneM.mk SceneMode.normal sel (stack ++ sel.map Cmd.itemRemove) wp post)),
        false)
    ∧ (stack ++ sel.map Cmd.itemRemove).length = stack.length + sel.length := by
  constructor
  · simp [View.keyPressEvent, View.keyPressRest]
  · simp

/-- C9: with no scene attached, every scene-requiring operation (Ctrl+W,
Ctrl+Space, Escape, Delete, Backspace and fitAll) leaves the controller
state unchanged, makes no scene call, pushes no command and signals no
error; Backspace merely falls through to the default handler, which touches
none of the modelled state. -/
theorem no_scene_silent_noop (zmin zmax step sf fitZoom : ℝ) (fs : FitState) :
    View.keyPressEvent zmin zmax step (KeyState.mk sf none) true Key.keyW
        = (KeyState.mk sf none, false)
    ∧ View.keyPressEvent zmin zmax step (KeyState.mk sf none) true Key.space
        = (KeyState.mk sf none, false)
    ∧ View.keyPressEvent zmin zmax step (KeyState.mk sf none) false Key.escape
        = (KeyState.mk sf none, false)
    ∧ View.keyPressEvent zmin zmax step (KeyState.mk sf none) false Key.delete
        = (KeyState.mk sf none, false)
    ∧ View.keyPressEvent zmin zmax step (KeyState.mk sf none) false Key.backspace
        = (KeyState.mk sf none, true)
    ∧ View.fitInView zmin zmax none fitZoom fs = fs :=
  ⟨rfl, rfl, rfl, rfl, rfl, rfl⟩

/-- C10: setScene never removes a previously registered mode-change
subscription: attaching scene s1 and later scene s2 leaves the connection
of s1 in place (the connection list only grows, by exactly one entry per
non-null setScene call), so a modeChanged emission from s1 still updates
the viewport cursor. -/
theorem setScene_keeps_old_connections (st : ConnView) (s1 s2 : ℕ) :
    (View.setScene (View.setScene st (some s1)) (some s2)).connections
        = st.connections ++ [s1] ++ [s2]
    ∧ (emitModeChanged (View.setScene (View.setScene st (some s1)) (some s2)) s1
        SceneMode.wire).cursor = CursorShape.cross := by
  constructor
  · simp [View.setScene]
  · simp [View.setScene, emitModeChanged, sceneModeCursor]

theorem qRound_le (q : ℚ) : (qRound q : ℚ) ≤ q + 1 / 2 := by
  unfold qRound
  split
  · exact Int.floor_le _
  · have h := Int.ceil_lt_add_one (q - 1 / 2)
    push_cast at h ⊢
    linarith

theorem le_qRound (q : ℚ) : q - 1 / 2 ≤ (qRound q : ℚ) := by
  unfold qRound
  split
  · have h := Int.lt_floor_add_one (q + 1 / 2)
    push_cast at h ⊢
    linarith
  · have h := Int.le_ceil (q - 1 / 2)
    push_cast at h ⊢
    linarith

theorem qRound_intCast (n : ℤ) : qRound (n : ℚ) = n := by
  unfold qRound
  split
  · refine Int.floor_eq_iff.mpr ⟨?_, ?_⟩ <;> norm_num
  · refine Int.ceil_eq_iff.mpr ⟨?_, ?_⟩ <;> norm_num

theorem paddedVisible_toRect (vis : QRectF) :
    (paddedVisible vis).toRect
      = QRect.mk (qRound vis.x - 50) (qRound vis.y - 50)
          (qRound vis.w + 100) (qRound vis.h + 100) := by
  show QRect.mk (qRound ((qRound vis.x : ℚ) - 50)) (qRound ((qRound vis.y : ℚ) - 50))
      (qRound ((qRound vis.w : ℚ) + 100)) (qRound ((qRound vis.h : ℚ) + 100)) = _
  rw [show ((qRound vis.x : ℤ) : ℚ) - 50 = ((qRound vis.x - 50 : ℤ) : ℚ) from by push_cast; ring,
    show ((qRound vis.y : ℤ) : ℚ) - 50 = ((qRound vis.y - 50 : ℤ) : ℚ) from by push_cast; ring,
    show ((qRound vis.w : ℤ) : ℚ) + 100 = ((qRound vis.w + 100 : ℤ) : ℚ) from by push_cast; ring,
    show ((qRound vis.h : ℤ) : ℚ) + 100 = ((qRound vis.h + 100 : ℤ) : ℚ) from by push_cast; ring,
    qRound_intCast, qRound_intCast, qRound_intCast, qRound_intCast]

theorem containsProper_toRect_imp (old vis : QRectF)
    (h : old.toRect.containsProper (paddedVisible vis).toRect) :
    old.containsRectF (paddedVisible vis) := by
  rw [paddedVisible_toRect] at h
  obtain ⟨-, -, hx, hr, hy, hb⟩ := h
  have hx2 : ((qRound old.x : ℚ)) + 1 ≤ (qRound vis.x : ℚ) - 50 := by
    exact_mod_cast Int.add_one_le_iff.mpr hx
  have hr2 : ((qRound vis.x : ℚ) - 50) + ((qRound vis.w : ℚ) + 100) + 1
      ≤ (qRound old.x : ℚ) + (qRound old.w : ℚ) := by
    exact_mod_cast Int.add_one_le_iff.mpr hr
  have hy2 : ((qRound old.y : ℚ)) + 1 ≤ (qRound vis.y : ℚ) - 50 := by
    exact_mod_cast Int.add_one_le_iff.mpr hy
  have hb2 : ((qRound vis.y : ℚ) - 50) + ((qRound vis.h : ℚ) + 100) + 1
      ≤ (qRound old.y : ℚ) + (qRound old.h : ℚ) := by
    exact_mod_cast Int.add_one_le_iff.mpr hb
  show old.x ≤ (qRound vis.x : ℚ) - 50
    ∧ ((qRound vis.x : ℚ) - 50) + ((qRound vis.w : ℚ) + 100) ≤ old.x + old.w
    ∧ old.y ≤ (qRound vis.y : ℚ) - 50
    ∧ ((qRound vis.y : ℚ) - 50) + ((qRound vis.h : ℚ) + 100) ≤ old.y + old.h
  refine ⟨?_, ?_, ?_, ?_⟩
  · have := le_qRound old.x
    linarith
  · have h1 := qRound_le old.x
    have h2 := qRound_le old.w
    linarith
  · have := le_qRound old.y
    linarith
  · have h1 := qRound_le old.y
    have h2 := qRound_le old.h
    linarith

theorem united_of_contains (a b : QRectF) (hc : a.containsRectF b)
    (hbw : 0 < b.w) (hbh : 0 < b.h) (haw : 0 ≤ a.w) (hah : 0 ≤ a.h) :
    a.united b = a := by
  obtain ⟨h1, h2, h3, h4⟩ := hc
  have haw2 : 0 < a.w := by linarith
  have hah2 : 0 < a.h := by linarith
  unfold QRectF.united
  rw [if_neg (fun hn : a.isNull => absurd hn.1 (ne_of_gt haw2)),
    if_neg (fun hn : b.isNull => absurd hn.1 (ne_of_gt hbw))]
  simp only [if_neg (not_lt.mpr haw), if_neg (not_lt.mpr hah),
    if_neg (not_lt.mpr (le_of_lt hbw)), if_neg (not_lt.mpr (le_of_lt hbh))]
  rw [min_eq_left h1, min_eq_left h3, max_eq_left h2, max_eq_left h4,
    show a.x + a.w - a.x = a.w from by ring, show a.y + a.h - a.y = a.h from by ring]

theorem united_contains_left (a b : QRectF) (haw : 0 ≤ a.w) (hah : 0 ≤ a.h)
    (hna : ¬ a.isNull) (hbw : 0 < b.w) (hbh : 0 < b.h) :
    (a.united b).containsRectF a := by
  unfold QRectF.united
  rw [if_neg hna, if_neg (fun hn : b.isNull => absurd hn.1 (ne_of_gt hbw))]
  simp only [if_neg (not_lt.mpr haw), if_neg (not_lt.mpr hah),
    if_neg (not_lt.mpr (le_of_lt hbw)), if_neg (not_lt.mpr (le_of_lt hbh))]
  show min a.x b.x ≤ a.x
    ∧ a.x + a.w ≤ min a.x b.x + (max (a.x + a.w) (b.x + b.w) - min a.x b.x)
    ∧ min a.y b.y ≤ a.y
    ∧ a.y + a.h ≤ min a.y b.y + (max (a.y + a.h) (b.y + b.h) - min a.y b.y)
  refine ⟨min_le_left _ _, ?_, min_le_left _ _, ?_⟩
  · have := le_max_left (a.x + a.w) (b.x + b.w)
    linarith
  · have := le_max_left (a.y + a.h) (b.y + b.h)
    linarith

/-- C7: updateSceneRect never shrinks the scene rect; when the padded visible
region is fully contained in the current scene rect the scene rect is left
unchanged, and when it is not contained the result is exactly the union of
the old scene rect and the padded visible region. -/
theorem updateSceneRect_grows_union (old vis : QRectF)
    (hw : 0 ≤ old.w) (hh : 0 ≤ old.h) (hnn : ¬ old.isNull)
    (hvw : 0 ≤ vis.w) (hvh : 0 ≤ vis.h) :
    (View.updateSceneRect old vis).containsRectF old
    ∧ (old.containsRectF (paddedVisible vis) → View.updateSceneRect old vis = old)
    ∧ (¬ old.containsRectF (paddedVisible vis) →
        View.updateSceneRect old vis = old.united (paddedVisible vis)) := by
  have hpw : 0 < (paddedVisible vis).w := by
    show 0 < (qRound vis.w : ℚ) + 100
    have := le_qRound vis.w
    linarith
  have hph : 0 < (paddedVisible vis).h := by
    show 0 < (qRound vis.h : ℚ) + 100
    have := le_qRound vis.h
    linarith
  have hsplit : View.updateSceneRect old vis
      = if ¬ old.toRect.containsProper (paddedVisible vis).toRect
        then old.united (paddedVisible vis) else old := rfl
  by_cases hc : old.toRect.containsProper (paddedVisible vis).toRect
  · have hcont : old.containsRectF (paddedVisible vis) := containsProper_toRect_imp old vis hc
    have hres : View.updateSceneRect old vis = old := by
      rw [hsplit, if_neg (not_not_intro hc)]
    refine ⟨?_, fun _ => hres, fun hnc => absurd hcont hnc⟩
    rw [hres]
    exact ⟨le_refl _, le_refl _, le_refl _, le_refl _⟩
  · have hres : View.updateSceneRect old vis = old.united (paddedVisible vis) := by
      rw [hsplit, if_pos hc]
    refine ⟨?_, ?_, fun _ => hres⟩
    · rw [hres]
      exact united_contains_left old (paddedVisible vis) hw hh hnn hpw hph
    · intro hcont
      rw [hres]
      exact united_of_contains old (paddedVisible vis) hcont hpw hph hw hh

theorem updateSceneRect_grows_union_witness :
    (0 : ℚ) ≤ (QRectF.mk 0 0 200 200).w ∧ (0 : ℚ) ≤ (QRectF.mk 0 0 200 200).h ∧
    ¬ (QRectF.mk 0 0 200 200).isNull ∧
    (0 : ℚ) ≤ (QRectF.mk 10 10 20 20).w ∧ (0 : ℚ) ≤ (QRectF.mk 10 10 20 20).h ∧
    ((View.updateSceneRect (QRectF.mk 0 0 200 200) (QRectF.mk 10 10 20 20)).containsRectF
        (QRectF.mk 0 0 200 200)
      ∧ ((QRectF.mk 0 0 200 200).containsRectF (paddedVisible (QRectF.mk 10 10 20 20)) →
          View.updateSceneRect (QRectF.mk 0 0 200 200) (QRectF.mk 10 10 20 20)
            = QRectF.mk 0 0 200 200)
      ∧ (¬ (QRectF.mk 0 0 200 200).containsRectF (paddedVisible (QRectF.mk 10 10 20 20)) →
          View.updateSceneRect (QRectF.mk 0 0 200 200) (QRectF.mk 10 10 20 20)
            = (QRectF.mk 0 0 200 200).united (paddedVisible (QRectF.mk 10 10 20 20)))) := by
  refine ⟨by decide, by decide, by decide, by decide, by decide, ?_⟩
  exact updateSceneRect_grows_union (QRectF.mk 0 0 200 200) (QRectF.mk 10 10 20 20)
    (by decide) (by decide) (by decide) (by decide) (by decide)

theorem toPointQ_intCast (a b : ℤ) : toPointQ ((a : ℚ), (b : ℚ)) = ((a : ℚ), (b : ℚ)) := by
  simp [toPointQ, qRound_intCast]

/-- C8: the pan gesture is a three-step state machine: a middle press enters
Pan mode and records the press position as the anchor; a move in Pan mode
translates the view transform by exactly the scene-space delta between the
current pointer position and the anchor and then moves the anchor to the
current position (so the scene point that was under the anchor lands under
the pointer); a middle release returns the mode to Normal. -/
theorem pan_gesture_state_machine (st : PanState) (x0 y0 x1 y1 : ℤ)
    (hm : st.transform.m11 ≠ 0) :
    (View.mousePressEvent st MouseButton.middleB ((x0 : ℚ), (y0 : ℚ))).mode = ViewMode.panMode
    ∧ (View.mousePressEvent st MouseButton.middleB ((x0 : ℚ), (y0 : ℚ))).panStart
        = ((x0 : ℚ), (y0 : ℚ))
    ∧ (View.mousePressEvent st MouseButton.middleB ((x0 : ℚ), (y0 : ℚ))).transform
        = st.transform
    ∧ (View.mouseMoveEvent (View.mousePressEvent st MouseButton.middleB ((x0 : ℚ), (y0 : ℚ)))
        ((x1 : ℚ), (y1 : ℚ))).transform
        = st.transform.translate
            (psub (View.mapToScene st.transform ((x1 : ℚ), (y1 : ℚ)))
              (View.mapToScene st.transform ((x0 : ℚ), (y0 : ℚ))))
    ∧ (View.mouseMoveEvent (View.mousePressEvent st MouseButton.middleB ((x0 : ℚ), (y0 : ℚ)))
        ((x1 : ℚ), (y1 : ℚ))).panStart = ((x1 : ℚ), (y1 : ℚ))
    ∧ View.mapToScene
        (View.mouseMoveEvent (View.mousePressEvent st MouseButton.middleB ((x0 : ℚ), (y0 : ℚ)))
          ((x1 : ℚ), (y1 : ℚ))).transform ((x1 : ℚ), (y1 : ℚ))
        = View.mapToScene st.transform ((x0 : ℚ), (y0 : ℚ))
    ∧ (View.mouseReleaseEvent
        (View.mouseMoveEvent (View.mousePressEvent st MouseButton.middleB ((x0 : ℚ), (y0 : ℚ)))
          ((x1 : ℚ), (y1 : ℚ))) MouseButton.middleB).mode = ViewMode.normalMode := by
  have hpress : View.mousePressEvent st MouseButton.middleB ((x0 : ℚ), (y0 : ℚ))
      = { st with mode := ViewMode.panMode, panStart := ((x0 : ℚ), (y0 : ℚ)), cursor := CursorShape.closedHand } := by
    unfold View.mousePressEvent
    rw [if_pos rfl, toPointQ_intCast]
  have hmove : View.mouseMoveEvent (View.mousePressEvent st MouseButton.middleB
        ((x0 : ℚ), (y0 : ℚ))) ((x1 : ℚ), (y1 : ℚ))
      = { st with mode := ViewMode.panMode, panStart := ((x1 : ℚ), (y1 : ℚ)), cursor := CursorShape.closedHand, transform := st.transform.translate (psub (View.mapToScene st.transform ((x1 : ℚ), (y1 : ℚ))) (View.mapToScene st.transform ((x0 : ℚ), (y0 : ℚ)))) } := by
    rw [hpress]
    simp [View.mouseMoveEvent, toPointQ_intCast]
  have hinv : View.mapToScene
      (st.transform.translate
        (psub (View.mapToScene st.transform ((x1 : ℚ), (y1 : ℚ)))
          (View.mapToScene st.transform ((x0 : ℚ), (y0 : ℚ))))) ((x1 : ℚ), (y1 : ℚ))
      = View.mapToScene st.transform ((x0 : ℚ), (y0 : ℚ)) := by
    unfold View.mapToScene QTransform.translate psub
    rw [Prod.mk.injEq]
    constructor
    · field_simp
      ring
    · field_simp
      ring
  refine ⟨by rw [hpress], by rw [hpress], by rw [hpress], by rw [hmove], by rw [hmove],
    ?_, ?_⟩
  · rw [hmove]
    exact hinv
  · rw [hmove]
    unfold View.mouseReleaseEvent
    rw [if_pos rfl]

theorem pan_gesture_state_machine_witness :
    (PanState.mk ViewMode.normalMode (0, 0) (QTransform.mk 2 4 6) CursorShape.arrow).transform.m11
        ≠ 0
    ∧ View.mapToScene
        (View.mouseMoveEvent
          (View.mousePressEvent
            (PanState.mk ViewMode.normalMode (0, 0) (QTransform.mk 2 4 6) CursorShape.arrow)
            MouseButton.middleB (((10 : ℤ) : ℚ), ((20 : ℤ) : ℚ)))
          (((14 : ℤ) : ℚ), ((22 : ℤ) : ℚ))).transform (((14 : ℤ) : ℚ), ((22 : ℤ) : ℚ))
        = View.mapToScene
            (PanState.mk ViewMode.normalMode (0, 0) (QTransform.mk 2 4 6)
              CursorShape.arrow).transform (((10 : ℤ) : ℚ), ((20 : ℤ) : ℚ))
    ∧ (View.mouseReleaseEvent
        (View.mouseMoveEvent
          (View.mousePressEvent
            (PanState.mk ViewMode.normalMode (0, 0) (QTransform.mk 2 4 6) CursorShape.arrow)
            MouseButton.middleB (((10 : ℤ) : ℚ), ((20 : ℤ) : ℚ)))
          (((14 : ℤ) : ℚ), ((22 : ℤ) : ℚ))) MouseButton.middleB).mode = ViewMode.normalMode := by
  have h := pan_gesture_state_machine
    (PanState.mk ViewMode.normalMode (0, 0) (QTransform.mk 2 4 6) CursorShape.arrow)
    10 20 14 22 (by decide)
  exact ⟨by decide, h.2.2.2.2.2.1, h.2.2.2.2.2.2⟩

end QSchematic
